import Mathlib

/-!
Shallow embedding of the request-lifecycle engine of the obsidian-ai-companion
plugin: the `AIClient` retry/timeout/cancellation logic and SSE streaming parser
(`src/services/ai-client.ts`), the `RequestQueue` bounded-concurrency queue
(`src/services/request-queue.ts`), and the `CancelToken` primitive.

Strings are embedded as `List Char` (`Str`); the JavaScript string operations
used by the source (`toLowerCase`, `includes`, `startsWith`, `slice`, `split`,
`trim`) are translated to executable functions on `Str`.  Platform effects
(fetch, JSON.parse, timers) are modelled as explicit inputs or event traces.
-/

namespace AICompanion

/-- Embedded JavaScript string: a list of characters. -/
abbrev Str := List Char

/-- JavaScript `String.prototype.includes`: `listContains pat s` is true iff
`pat` occurs as a contiguous substring of `s`. -/
def listContains (pat : Str) : Str → Bool
  | [] => pat.isEmpty
  | c :: rest => pat.isPrefixOf (c :: rest) || listContains pat rest

/-- JavaScript `String.prototype.toLowerCase` (ASCII case folding, as used by
the source on its ASCII error keywords). -/
def strLower (s : Str) : Str := s.map Char.toLower

/-- Type `AIErrorType` from `src/types` (part_002): the complete enumeration of
error kinds the code can produce.  Note: there is no `cancelled` member. -/
inductive AIErrorType where
  | network
  | api
  | auth
  | timeout
  | rate_limit
  | invalid_request
  | unknown
deriving DecidableEq, Repr

/-- Structure `AIError` from `src/types` (part_002): classified error value.
`originalError` is represented by the raw message kept in `details`. -/
structure AIError where
  type : AIErrorType
  message : Str
  details : Str
  retryable : Bool
deriving DecidableEq, Repr

/-- Function `AIClient.isRetryableError` (ai-client.ts lines 374-400): retry-eligibility
check on the lower-cased raised message. -/
def isRetryableError (msg : Str) : Bool :=
  let message := strLower msg
  if listContains "network".toList message || listContains "fetch".toList message then true
  else if listContains "timeout".toList message then true
  else if listContains "500".toList message || listContains "502".toList message ||
          listContains "503".toList message || listContains "504".toList message then true
  else if listContains "429".toList message || listContains "rate limit".toList message then true
  else false

/-- Function `AIClient.convertToAIError` (ai-client.ts lines 408-486): classification of
a raised error's message into an `AIError`.  The branch order is exactly the
source's: network/fetch, timeout, auth, rate limit, cancel, "api error",
fallback unknown. -/
def convertToAIError (msg : Str) : AIError :=
  let message := strLower msg
  if listContains "network".toList message || listContains "fetch".toList message then
    { type := .network, message := "无法连接到 AI 服务，请检查网络连接".toList,
      details := msg, retryable := true }
  else if listContains "timeout".toList message then
    { type := .timeout, message := "AI 服务响应超时，请稍后重试".toList,
      details := msg, retryable := true }
  else if listContains "401".toList message || listContains "403".toList message ||
          listContains "unauthorized".toList message || listContains "forbidden".toList message then
    { type := .auth, message := "API 密钥无效或已过期，请检查设置".toList,
      details := msg, retryable := false }
  else if listContains "429".toList message || listContains "rate limit".toList message then
    { type := .rate_limit, message := "API 调用频率超限，请稍后重试".toList,
      details := msg, retryable := true }
  else if listContains "cancel".toList message then
    { type := .unknown, message := "请求已取消".toList,
      details := msg, retryable := false }
  else if listContains "api error".toList message then
    { type := .api, message := "AI 服务错误".toList,
      details := msg, retryable := listContains "5".toList message }
  else
    { type := .unknown, message := "发生未知错误，请查看控制台了解详情".toList,
      details := msg, retryable := false }

/-- Structure `AIResponse` from `src/types` (part_002), restricted to the fields the
request lifecycle produces (`model`/`timestamp` are configuration/clock
pass-throughs). -/
structure AIResponse where
  id : Str
  content : Str
  tokensUsed : Option Nat
  finishReason : Option Str
deriving DecidableEq, Repr

/-- Outcome of one `executeRequest` attempt: either a response or a raised
error, identified by its message (the only part `sendRequest` inspects). -/
inductive AttemptResult where
  | ok (r : AIResponse)
  | err (msg : Str)
deriving DecidableEq, Repr

/-- Final outcome of `sendRequest`: a returned response or a thrown
classified error. -/
inductive ReqOutcome where
  | ok (r : AIResponse)
  | error (e : AIError)
deriving DecidableEq, Repr

/-- Observable run of `AIClient.sendRequest`: the final outcome, the number of
HTTP attempts executed, and the list of back-off sleeps (milliseconds) in
order. -/
structure RunResult where
  result : ReqOutcome
  attempts : Nat
  delaysMs : List Nat
deriving DecidableEq, Repr

/-- Loop of `AIClient.sendRequest`: its `while (attempt <= this.config.maxRetries)` loop
(ai-client.ts lines 74-108), compiled to fuel recursion: `remaining` is the
number of loop iterations still allowed, i.e. `maxRetries + 1 - attempt`, so
`remaining = 0` is exactly the loop exit `attempt > maxRetries`.  The attempt
outcomes are supplied by `out` (the platform fetch wrapped in
`executeRequest`) and `canc k` gives the value of
`request.cancelToken?.cancelled` observed after attempt `k` fails.  Mirrors
the source exactly: on a failed attempt, first the non-retryable check throws
the classified error, then the cancellation check throws the classified
"Request cancelled" error, then the attempt counter is incremented and, if
the loop will run again (`attempt + 1 ≤ maxRetries`, i.e. `1 ≤ remaining`
after decrement), the loop sleeps `2^(attempt-1) * 1000` ms before retrying;
an exhausted loop throws the classified last error. -/
def sendLoop (out : Nat → AttemptResult) (canc : Nat → Bool) :
    Nat → Nat → Option Str → RunResult
  | 0, attempt, lastError =>
    { result := .error (convertToAIError (lastError.getD "Request failed".toList)),
      attempts := attempt, delaysMs := [] }
  | remaining + 1, attempt, _lastError =>
    match out attempt with
    | .ok r => { result := ReqOutcome.ok r, attempts := attempt + 1, delaysMs := [] }
    | .err m =>
      if ¬ isRetryableError m then
        { result := .error (convertToAIError m), attempts := attempt + 1, delaysMs := [] }
      else if canc attempt then
        { result := .error (convertToAIError "Request cancelled".toList),
          attempts := attempt + 1, delaysMs := [] }
      else
        let rest := sendLoop out canc remaining (attempt + 1) (some m)
        if 1 ≤ remaining then
          { rest with delaysMs := (2 ^ attempt * 1000) :: rest.delaysMs }
        else
          rest

/-- Function `AIClient.sendRequest` run from its initial state (`attempt = 0`,
`lastError = null`, loop budget `maxRetries + 1`). -/
def sendRequest (out : Nat → AttemptResult) (canc : Nat → Bool) (maxRetries : Nat) : RunResult :=
  sendLoop out canc (maxRetries + 1) 0 none

/-! ## Streaming (`AIClient.handleStreamResponse`, ai-client.ts lines 268-344) -/

/-- The fields of a parsed SSE JSON chunk that `handleStreamResponse` reads:
`choices?.[0]?.delta?.content`, `usage` (with its `total_tokens`), and
`choices?.[0]?.finish_reason`.  `JSON.parse` itself is a platform function;
the embedding takes the parse as an explicit input
`parse : Str → Option StreamChunkJson`, where `none` is a `JSON.parse`
throw. -/
structure StreamChunkJson where
  delta : Option Str
  usage : Option (Option Nat)
  finishReason : Option Str
deriving DecidableEq, Repr

/-- Accumulation state of `handleStreamResponse`: the `fullContent`
accumulator, last-seen `tokensUsed`/`finishReason`, and the trace of
`onStream` callback invocations in delivery order. -/
structure StreamState where
  fullContent : Str
  tokensUsed : Option Nat
  finishReason : Option Str
  events : List Str
deriving DecidableEq, Repr

/-- Initial accumulation state (`fullContent = ''`, nothing seen, no
`onStream` call made). -/
def initStreamState : StreamState :=
  { fullContent := [], tokensUsed := none, finishReason := none, events := [] }

/-- JavaScript truthiness of a whitespace-trimmed line being non-empty:
`line.trim() !== ''` holds iff some character is not whitespace.  (The
whitespace set is the ASCII one; the source's lines are ASCII-framed SSE.) -/
def isBlankLine (l : Str) : Bool :=
  l.all fun c => c = ' ' || c = '\t' || c = '\n' || c = '\r'

/-- Translation of `chunk.split('\n').filter(line => line.trim() !== '')`
(ai-client.ts line 289). -/
def chunkLines (chunk : Str) : List Str :=
  (List.splitOn '\n' chunk).filter fun l => ! isBlankLine l

/-- Content update (ai-client.ts lines 305-313): a truthy
(present, non-empty) `choices[0].delta.content` is appended to `fullContent`
and delivered to `request.onStream` — the `events` field records the
delivery. -/
def applyDelta (st : StreamState) (delta : Option Str) : StreamState :=
  match delta with
  | some d =>
    if d.isEmpty then st
    else { st with fullContent := st.fullContent ++ d, events := st.events ++ [d] }
  | none => st

/-- Metadata update `if (parsed.usage) { tokensUsed = parsed.usage.total_tokens }`
(ai-client.ts lines 316-318). -/
def applyUsage (st : StreamState) (usage : Option (Option Nat)) : StreamState :=
  match usage with
  | some u => { st with tokensUsed := u }
  | none => st

/-- Metadata update `if (parsed.choices?.[0]?.finish_reason) { finishReason = ... }`
(ai-client.ts lines 319-321); the guard is JavaScript truthiness, so an empty
string does not overwrite. -/
def applyFinish (st : StreamState) (fr : Option Str) : StreamState :=
  match fr with
  | some f => if f.isEmpty then st else { st with finishReason := some f }
  | none => st

/-- Body of the `for (const line of lines)` loop (ai-client.ts lines
291-327): a line that starts with `data: ` has the 6-character prefix
stripped (`line.slice(6)`); the `[DONE]` sentinel is skipped; the payload is
parsed, a parse failure being caught, logged and skipped; otherwise the
delta/usage/finish-reason updates run in order. -/
def processLine (parse : Str → Option StreamChunkJson) (st : StreamState) (line : Str) :
    StreamState :=
  if "data: ".toList.isPrefixOf line then
    let data := line.drop 6
    if data = "[DONE]".toList then st
    else
      match parse data with
      | none => st
      | some parsed => applyFinish (applyUsage (applyDelta st parsed.delta) parsed.usage)
          parsed.finishReason
  else st

/-- Processing of one decoded reader chunk: split on newlines, drop blank
lines, run the line loop.  Note the split is per chunk — no partial-line
buffer is carried from one chunk to the next. -/
def processChunk (parse : Str → Option StreamChunkJson) (st : StreamState) (chunk : Str) :
    StreamState :=
  (chunkLines chunk).foldl (processLine parse) st

/-- The whole read loop of `handleStreamResponse` over the sequence of chunks
the reader yields, from a given accumulation state. -/
def handleStreamFrom (parse : Str → Option StreamChunkJson) (st : StreamState)
    (chunks : List Str) : StreamState :=
  chunks.foldl (processChunk parse) st

/-- Function `handleStreamResponse` run from the initial state; its final `AIResponse`
has `content := fullContent` and the last-seen metadata. -/
def handleStream (parse : Str → Option StreamChunkJson) (chunks : List Str) : StreamState :=
  handleStreamFrom parse initStreamState chunks

/-- The final `AIResponse` built by `handleStreamResponse` (ai-client.ts lines
333-343) for request id `id`. -/
def streamResponse (parse : Str → Option StreamChunkJson) (id : Str) (chunks : List Str) :
    AIResponse :=
  let fin := handleStream parse chunks
  { id := id, content := fin.fullContent, tokensUsed := fin.tokensUsed,
    finishReason := fin.finishReason }

/-! ## CancelToken and per-attempt timer/hook lifecycle
(`createCancelToken`, ai-client.ts lines 16-38, and `executeRequest`,
lines 142-221) -/

/-- State of a `createCancelToken` token: the monotone `cancelled` flag and
the registered callback list.  Callbacks are identified by the index of the
attempt that registered them. -/
structure Token where
  cancelled : Bool
  callbacks : List Nat
deriving DecidableEq, Repr

/-- Token returned by `createCancelToken()`: flag false, no callbacks. -/
def createCancelToken : Token := { cancelled := false, callbacks := [] }

/-- Operation `token.onCancel(cb)` (ai-client.ts lines 30-36): fire immediately if
already cancelled, else append to the callback list.  Returns the new token
state and the list of callback ids fired during registration. -/
def onCancel (t : Token) (k : Nat) : Token × List Nat :=
  if t.cancelled then (t, [k])
  else ({ t with callbacks := t.callbacks ++ [k] }, [])

/-- Operation `token.cancel()` (ai-client.ts lines 24-29): if not yet cancelled, set
the flag and fire every registered callback in registration order; a second
call is a no-op.  Returns the new token state and the fired callback ids. -/
def tokenCancel (t : Token) : Token × List Nat :=
  if t.cancelled then (t, [])
  else ({ t with cancelled := true }, t.callbacks)

/-- Timer/hook events of one `executeRequest` attempt. -/
inductive AttEvent where
  | timerSet (k : Nat)
  | timerClear (k : Nat)
  | hookFired (k : Nat)
deriving DecidableEq, Repr

/-- The timer and cancellation-hook effects of `executeRequest` for attempt
`k` (ai-client.ts lines 142-221): `setTimeout` is armed, the cancel hook is
registered on the token via `onCancel`, and — on both the success path (line
176) and the catch path (line 205) — `clearTimeout` retires the timer when
the attempt settles.  Nothing ever removes the registered hook from the
token: `CancelToken` has no deregistration operation. -/
def attemptEffects (t : Token) (k : Nat) : Token × List AttEvent :=
  let reg := onCancel t k
  (reg.1, [AttEvent.timerSet k] ++ reg.2.map AttEvent.hookFired ++ [AttEvent.timerClear k])

/-- Timers still armed after a trace of events: `timerSet` arms, `timerClear`
disarms. -/
def armedTimers (evs : List AttEvent) : List Nat :=
  evs.foldl
    (fun acc e =>
      match e with
      | .timerSet k => acc ++ [k]
      | .timerClear k => acc.erase k
      | .hookFired _ => acc)
    []

/-! ## RequestQueue (`src/services/request-queue.ts`) -/

/-- Structure `QueuedRequest` from `src/types` (part_002): the wrapped request (kept as
its id), the priority, and the insertion timestamp.  The resolve/reject
continuations are represented by the event trace of the queue operations. -/
structure QueuedRequest where
  id : Str
  priority : Nat
  addedAt : Nat
deriving DecidableEq, Repr

/-- Observable actions of the queue: invoking `AIClient.sendRequest` for an
admitted request, invoking `AIClient.cancelRequest`, and rejecting a waiting
request's promise with an error. -/
inductive QEvent where
  | sendReq (id : Str)
  | clientCancel (id : Str)
  | rejected (id : Str) (e : AIError)
deriving DecidableEq, Repr

/-- State of a `RequestQueue`: the concurrency limit, the key set of the
`activeRequests` map in insertion order, the `pendingRequests` array, and the
two monotone counters. -/
structure QueueState where
  maxConcurrent : Nat
  active : List Str
  pending : List QueuedRequest
  completedCount : Nat
  failedCount : Nat
deriving DecidableEq, Repr

/-- A fresh queue (`new RequestQueue(client, maxConcurrent)`). -/
def initQueue (maxConcurrent : Nat) : QueueState :=
  { maxConcurrent := maxConcurrent, active := [], pending := [],
    completedCount := 0, failedCount := 0 }

/-- Stable insertion step of insertion sort by priority descending: the
element `x`, which precedes every element of the list in the original order,
is placed before the first element whose priority does not exceed `x`'s —
so `x` ends up before equal-priority elements that originally followed it. -/
def insertDesc (x : QueuedRequest) : List QueuedRequest → List QueuedRequest
  | [] => [x]
  | y :: ys => if y.priority ≤ x.priority then x :: y :: ys else y :: insertDesc x ys

/-- Translation of `pendingRequests.sort((a, b) => b.priority - a.priority)`
(request-queue.ts line 62): a stable sort by priority descending
(JavaScript's `Array.prototype.sort` is required to be stable), here as
stable insertion sort — equal-priority elements keep their relative order. -/
def sortDesc : List QueuedRequest → List QueuedRequest
  | [] => []
  | x :: xs => insertDesc x (sortDesc xs)

/-- Position characterization of a stable descending insert into an already
sorted list: the new element goes after every present element of greater or
equal priority and before the first of strictly smaller priority (FIFO among
equal priorities). -/
def insertAfterGE (x : QueuedRequest) : List QueuedRequest → List QueuedRequest
  | [] => [x]
  | y :: ys => if x.priority ≤ y.priority then y :: insertAfterGE x ys else x :: y :: ys

/-- Admission effect of `RequestQueue.executeRequest` (request-queue.ts lines
72-99): the request id is added to the `activeRequests` map and
`aiClient.sendRequest` is invoked for it. -/
def admitReq (st : QueueState) (q : QueuedRequest) : QueueState × List QEvent :=
  ({ st with active := st.active ++ [q.id] }, [QEvent.sendReq q.id])

/-- Operation `RequestQueue.enqueue(request, priority)` (request-queue.ts lines 45-65):
admit immediately while `activeRequests.size < maxConcurrent`, else push onto
the waiting list and re-sort it by priority descending. -/
def enqueue (st : QueueState) (q : QueuedRequest) : QueueState × List QEvent :=
  if st.active.length < st.maxConcurrent then admitReq st q
  else ({ st with pending := sortDesc (st.pending ++ [q]) }, [])

/-- Operation `RequestQueue.processNext` (request-queue.ts lines 104-113): if the
waiting list is non-empty and a slot is free, shift its head and admit it. -/
def processNext (st : QueueState) : QueueState × List QEvent :=
  match st.pending with
  | [] => (st, [])
  | next :: rest =>
    if st.active.length < st.maxConcurrent then
      admitReq { st with pending := rest } next
    else (st, [])

/-- Settlement of an active request's promise (the `.then`/`.catch`/`.finally`
chain installed by `executeRequest`, request-queue.ts lines 76-95): bump the
completed or failed counter, remove the id from the active map, and run
`processNext`. -/
def settle (st : QueueState) (id : Str) (success : Bool) : QueueState × List QEvent :=
  processNext
    { st with
      active := st.active.erase id,
      completedCount := if success then st.completedCount + 1 else st.completedCount,
      failedCount := if success then st.failedCount else st.failedCount + 1 }

/-- Removal of the first waiting entry with the given id
(`findIndex` + `splice`, request-queue.ts lines 135-139): the remaining list
and the removed entry, if any. -/
def eraseFirstById : List QueuedRequest → Str → List QueuedRequest × Option QueuedRequest
  | [], _ => ([], none)
  | q :: qs, id =>
    if q.id = id then (qs, some q)
    else
      let r := eraseFirstById qs id
      (q :: r.1, r.2)

/-- The rejection value used by `RequestQueue.cancel` for a waiting request
(request-queue.ts lines 142-147). -/
def queueCancelError : AIError :=
  { type := .unknown, message := "请求已取消".toList,
    details := "Request cancelled by user".toList, retryable := false }

/-- Operation `RequestQueue.cancel(requestId)` (request-queue.ts lines 124-150): if the
id is active, tell the client to cancel it, drop it from the active map and
admit a waiting request; then, independently, if the id names a waiting
entry, splice it out and reject its promise. -/
def cancel (st : QueueState) (id : Str) : QueueState × List QEvent :=
  let s1 :=
    if id ∈ st.active then
      let nx := processNext { st with active := st.active.erase id }
      (nx.1, [QEvent.clientCancel id] ++ nx.2)
    else (st, [])
  let er := eraseFirstById s1.1.pending id
  match er.2 with
  | some _ => ({ s1.1 with pending := er.1 }, s1.2 ++ [QEvent.rejected id queueCancelError])
  | none => s1

/-- A sequence of enqueues, accumulating the event trace. -/
def enqueueAll (st : QueueState) : List QueuedRequest → QueueState × List QEvent
  | [] => (st, [])
  | q :: qs =>
    let r := enqueue st q
    let rest := enqueueAll r.1 qs
    (rest.1, r.2 ++ rest.2)

/-- The ids handed to `AIClient.sendRequest`, in admission order, within an
event trace. -/
def admittedIds (evs : List QEvent) : List Str :=
  evs.filterMap fun e =>
    match e with
    | .sendReq id => some id
    | _ => none

/-- The pending list is sorted by priority descending. -/
def PendingSorted (l : List QueuedRequest) : Prop :=
  l.Pairwise fun a b => b.priority ≤ a.priority

/-- Retryability as a function of the produced kind, as the code actually
determines it: `network`/`timeout`/`rate_limit` are retryable, `api` is
retryable iff the lower-cased message contains the character `5` (the code's
`message.includes('5')`), and every other kind — `auth` and the `unknown`
fallback, which is also what cancellation maps to — is not. -/
def kindRetryable (t : AIErrorType) (lowered : Str) : Bool :=
  match t with
  | .network => true
  | .timeout => true
  | .rate_limit => true
  | .api => listContains "5".toList lowered
  | _ => false

/-- Concrete queue scenario of the priority claim: a priority-5 request that
occupies the single slot. -/
def q0 : QueuedRequest := { id := "q0".toList, priority := 5, addedAt := 0 }

/-- Priority-3 request enqueued first while at capacity. -/
def qPrio3 : QueuedRequest := { id := "p3".toList, priority := 3, addedAt := 1 }

/-- Priority-9 request enqueued second while at capacity. -/
def qPrio9 : QueuedRequest := { id := "p9".toList, priority := 9, addedAt := 2 }

/-- Priority-1 request enqueued third while at capacity. -/
def qPrio1 : QueuedRequest := { id := "p1".toList, priority := 1, addedAt := 3 }

/-- Trace of the priority scenario: with `maxConcurrent = 1`, enqueue the
slot-holder and then priorities 3, 9, 1, and let the active request settle
three times; collect all queue events in order. -/
def priorityTrace : QueueState × List QEvent :=
  let e := enqueueAll (initQueue 1) [q0, qPrio3, qPrio9, qPrio1]
  let s1 := settle e.1 "q0".toList true
  let s2 := settle s1.1 "p9".toList true
  let s3 := settle s2.1 "p3".toList true
  (s3.1, e.2 ++ s1.2 ++ s2.2 ++ s3.2)

/-- Invariant tying the streaming accumulator to the `onStream` delivery
trace: the accumulated content is the concatenation of the delivered
fragments. -/
def StreamInv (st : StreamState) : Prop := st.fullContent = st.events.flatten

/-- Concrete queue at capacity (`maxConcurrent = 1`, one active request) with
one waiting request, used for the cancellation scenarios. -/
def cxQueueState : QueueState :=
  { maxConcurrent := 1, active := ["a".toList],
    pending := [{ id := "b".toList, priority := 5, addedAt := 0 }],
    completedCount := 0, failedCount := 0 }

end AICompanion

/-! ## Theorems -/

namespace AICompanion

/-- Every classified error's `retryable` flag follows `kindRetryable`: a proof
obligation split over the classifier's branch cascade. -/
theorem convertToAIError_retryable_eq (msg : Str) :
    (convertToAIError msg).retryable =
      kindRetryable (convertToAIError msg).type (strLower msg) := by
  unfold convertToAIError
  dsimp only
  split_ifs <;> simp [kindRetryable]

/-- The classifier never produces the `invalid_request` kind: no branch of the
cascade returns it. -/
theorem convertToAIError_ne_invalid (msg : Str) :
    (convertToAIError msg).type ≠ AIErrorType.invalid_request := by
  unfold convertToAIError
  dsimp only
  split_ifs <;> simp

/-- Claim C2 (corrected).  Retryability of a classified error is determined
by its kind together with, for the `api` kind alone, the lower-cased message:
`network`/`timeout`/`rate_limit` are retryable, `api` is retryable iff the
lower-cased message contains the character `5` (the code's
`message.includes('5')`, not a 500-599 status-range test), and every other
kind — including the `unknown` kind that cancellation maps to — is not;
moreover the classifier never emits `invalid_request`. -/
theorem classification_retryable_characterization (msg : Str) :
    (convertToAIError msg).retryable =
      kindRetryable (convertToAIError msg).type (strLower msg) ∧
    (convertToAIError msg).type ≠ AIErrorType.invalid_request :=
  ⟨convertToAIError_retryable_eq msg, convertToAIError_ne_invalid msg⟩

/-- Claim C2 counterexample.  The claim's classification table fails on the
code: `API error: 405 - Method Not Allowed` classifies as `api` with
`retryable = true` (the digit `5` of `405` satisfies `includes('5')`),
although 405 is not in 500-599; `Request cancelled` classifies as `unknown`,
not as a `cancelled` kind (the error-kind enumeration has no such member);
and `fetch aborted after cancel` classifies as `network`, because the
network/fetch check precedes the cancel check. -/
theorem classification_precedence_cx :
    (convertToAIError "API error: 405 - Method Not Allowed".toList).type = AIErrorType.api ∧
    (convertToAIError "API error: 405 - Method Not Allowed".toList).retryable = true ∧
    (convertToAIError "Request cancelled".toList).type = AIErrorType.unknown ∧
    (convertToAIError "fetch aborted after cancel".toList).type = AIErrorType.network := by
  decide

/-- Claim C1 (corrected).  When an attempt fails with a retryable error and
the cancel token is observed cancelled, the retry loop stops at once — one
more attempt consumed, no back-off sleep, no use of the remaining budget —
and throws the classified `Request cancelled` error, whose kind is `unknown`
(with message `请求已取消` and `retryable = false`), since the error-kind
enumeration has no `cancelled` member. -/
theorem cancelled_short_circuit (out : Nat → AttemptResult) (canc : Nat → Bool)
    (remaining attempt : Nat) (m : Str) (lastE : Option Str)
    (hout : out attempt = .err m) (hret : isRetryableError m = true)
    (hcanc : canc attempt = true) :
    sendLoop out canc (remaining + 1) attempt lastE =
      { result := .error { type := .unknown, message := "请求已取消".toList,
                           details := "Request cancelled".toList, retryable := false },
        attempts := attempt + 1, delaysMs := [] } := by
  simp [sendLoop, hout, hret, hcanc]
  decide

/-- Claim C1 witness: a cancelled request whose first attempt fails with a
retryable network error stops after exactly one attempt, regardless of the
budget of 3 retries. -/
theorem cancelled_short_circuit_witness :
    sendRequest (fun _ => .err "network error".toList) (fun _ => true) 3 =
      { result := .error { type := .unknown, message := "请求已取消".toList,
                           details := "Request cancelled".toList, retryable := false },
        attempts := 1, delaysMs := [] } := by
  have h := cancelled_short_circuit (fun _ => .err "network error".toList) (fun _ => true)
    3 0 "network error".toList none rfl (by decide) rfl
  simpa [sendRequest] using h

/-- Claim C1 counterexample.  A request cancelled during a retryable
(timeout) first attempt does fail immediately, but with an error of kind
`unknown` — the claimed `cancelled` kind does not exist in the code's
error-kind enumeration, so the claim as stated is false. -/
theorem cancellation_kind_cx :
    sendRequest (fun _ => .err "Request timeout".toList) (fun _ => true) 5 =
      { result := .error { type := .unknown, message := "请求已取消".toList,
                           details := "Request cancelled".toList, retryable := false },
        attempts := 1, delaysMs := [] } := by
  decide

/-- Run of the retry loop from any reachable loop state, under attempt
outcomes that always fail retryably with no cancellation: it consumes the
whole budget, sleeping `2^a` seconds after the attempt of index `a`, and ends
with the classified last error. -/
theorem sendLoop_allRetryable (out : Nat → AttemptResult) (canc : Nat → Bool)
    (m : Nat → Str) (mr : Nat)
    (hout : ∀ k, k ≤ mr → out k = .err (m k))
    (hret : ∀ k, k ≤ mr → isRetryableError (m k) = true)
    (hcanc : ∀ k, k ≤ mr → canc k = false) :
    ∀ remaining attempt lastE, remaining + attempt = mr + 1 → 1 ≤ remaining →
      sendLoop out canc remaining attempt lastE =
        { result := .error (convertToAIError (m mr)), attempts := mr + 1,
          delaysMs := (List.range' attempt (mr - attempt)).map fun a => 2 ^ a * 1000 } := by
  intro remaining
  induction remaining with
  | zero => intro attempt lastE hsum h1; omega
  | succ r ih =>
    intro attempt lastE hsum _
    have hatt : attempt ≤ mr := by omega
    rcases Nat.eq_zero_or_pos r with hr | hr
    · subst hr
      have hmr : attempt = mr := by omega
      subst hmr
      simp [sendLoop, hout attempt hatt, hret attempt hatt, hcanc attempt hatt]
    · have hlt : attempt < mr := by omega
      have hrec := ih (attempt + 1) (some (m attempt)) (by omega) hr
      have hn : mr - attempt = (mr - (attempt + 1)) + 1 := by omega
      simp [sendLoop, hout attempt hatt, hret attempt hatt, hcanc attempt hatt, hr, hrec,
        hn, List.range'_succ]
      omega

/-- Claim C3 (confirmed).  With `maxRetries = N` and every attempt failing
with a retryable error while the token is never cancelled, `sendRequest`
executes exactly `N + 1` attempts, sleeps `2^(k-1)` seconds (here recorded in
milliseconds) between attempt `k` and attempt `k + 1`, and finally fails with
the classified form of the last attempt's error. -/
theorem retry_exhaustion (out : Nat → AttemptResult) (canc : Nat → Bool)
    (m : Nat → Str) (mr : Nat)
    (hout : ∀ k, k ≤ mr → out k = .err (m k))
    (hret : ∀ k, k ≤ mr → isRetryableError (m k) = true)
    (hcanc : ∀ k, k ≤ mr → canc k = false) :
    sendRequest out canc mr =
      { result := .error (convertToAIError (m mr)), attempts := mr + 1,
        delaysMs := (List.range mr).map fun a => 2 ^ a * 1000 } := by
  have h := sendLoop_allRetryable out canc m mr hout hret hcanc (mr + 1) 0 none (by omega)
    (by omega)
  simpa [sendRequest, List.range_eq_range'] using h

/-- Claim C3 witness: `maxRetries = 2` and a constant retryable network
failure give 3 attempts, delays of 1000 ms and 2000 ms, and the classified
network error. -/
theorem retry_exhaustion_witness :
    sendRequest (fun _ => .err "network error".toList) (fun _ => false) 2 =
      { result := .error { type := .network, message := "无法连接到 AI 服务，请检查网络连接".toList,
                           details := "network error".toList, retryable := true },
        attempts := 3, delaysMs := [1000, 2000] } := by
  have h := retry_exhaustion (fun _ => .err "network error".toList) (fun _ => false)
    (fun _ => "network error".toList) 2 (fun _ _ => rfl)
    (fun k _ => show isRetryableError "network error".toList = true by decide) (fun _ _ => rfl)
  rw [h]
  decide

end AICompanion

namespace AICompanion

/-- Preservation of the content/trace invariant by the delta update. -/
theorem applyDelta_inv (st : StreamState) (d : Option Str) (h : StreamInv st) :
    StreamInv (applyDelta st d) := by
  unfold StreamInv applyDelta at *
  cases d with
  | none => exact h
  | some s => dsimp only; split_ifs <;> simp [h]

/-- Preservation of the content/trace invariant by the usage update. -/
theorem applyUsage_inv (st : StreamState) (u : Option (Option Nat)) (h : StreamInv st) :
    StreamInv (applyUsage st u) := by
  unfold StreamInv applyUsage at *
  cases u <;> simpa using h

/-- Preservation of the content/trace invariant by the finish-reason
update. -/
theorem applyFinish_inv (st : StreamState) (fr : Option Str) (h : StreamInv st) :
    StreamInv (applyFinish st fr) := by
  unfold StreamInv applyFinish at *
  cases fr with
  | none => exact h
  | some f => dsimp only; split_ifs <;> simp [h]

/-- Preservation of the content/trace invariant by one line of the SSE
loop. -/
theorem processLine_inv (parse : Str → Option StreamChunkJson) (st : StreamState) (line : Str)
    (h : StreamInv st) : StreamInv (processLine parse st line) := by
  unfold processLine
  dsimp only
  split
  · split
    · exact h
    · split
      · exact h
      · exact applyFinish_inv _ _ (applyUsage_inv _ _ (applyDelta_inv _ _ h))
  · exact h

/-- Preservation of the content/trace invariant by a line sequence. -/
theorem foldl_processLine_inv (parse : Str → Option StreamChunkJson) (lines : List Str) :
    ∀ st, StreamInv st → StreamInv (lines.foldl (processLine parse) st) := by
  induction lines with
  | nil => intro st h; exact h
  | cons l ls ih => intro st h; exact ih _ (processLine_inv parse st l h)

/-- Preservation of the content/trace invariant by one reader chunk. -/
theorem processChunk_inv (parse : Str → Option StreamChunkJson) (st : StreamState) (c : Str)
    (h : StreamInv st) : StreamInv (processChunk parse st c) :=
  foldl_processLine_inv parse (chunkLines c) st h

/-- Preservation of the content/trace invariant by the whole read loop. -/
theorem handleStreamFrom_inv (parse : Str → Option StreamChunkJson) (chunks : List Str) :
    ∀ st, StreamInv st → StreamInv (handleStreamFrom parse st chunks) := by
  induction chunks with
  | nil => intro st h; exact h
  | cons c cs ih => intro st h; exact ih _ (processChunk_inv parse st c h)

/-- Claim C4 (confirmed).  For every streaming request and every chunk
sequence the reader yields, the final response's `content` equals the
concatenation, in delivery order, of all fragments passed to `onStream`; the
fragment trace is complete when the response is built, so no delivery
follows the terminal event. -/
theorem stream_fragments_concat (parse : Str → Option StreamChunkJson) (id : Str)
    (chunks : List Str) :
    (streamResponse parse id chunks).content = (handleStream parse chunks).events.flatten :=
  handleStreamFrom_inv parse chunks initStreamState rfl

/-- Reduction of the line loop on a well-formed `data: ` line: the prefix is
stripped and the payload dispatched. -/
theorem processLine_on_data_line (parse : Str → Option StreamChunkJson) (st : StreamState)
    (payload : Str) :
    processLine parse st ("data: ".toList ++ payload) =
      (if payload = "[DONE]".toList then st
       else
         match parse payload with
         | none => st
         | some parsed => applyFinish (applyUsage (applyDelta st parsed.delta) parsed.usage)
             parsed.finishReason) := by
  unfold processLine
  have hpre : "data: ".toList.isPrefixOf ("data: ".toList ++ payload) = true := by
    simp [List.isPrefixOf_iff_prefix]
  have hdrop : List.drop 6 ("data: ".toList ++ payload) = payload := by
    have h6 : ("data: ".toList).length = 6 := by decide
    rw [← h6]
    exact List.drop_left "data: ".toList payload
  rw [hpre]
  dsimp only
  rw [hdrop, if_pos rfl]

/-- A data line whose payload fails to parse leaves the accumulation state
unchanged (the parse error is caught and the loop continues). -/
theorem processLine_malformed (parse : Str → Option StreamChunkJson) (st : StreamState)
    (payload : Str) (hp : parse payload = none) :
    processLine parse st ("data: ".toList ++ payload) = st := by
  rw [processLine_on_data_line]
  split_ifs with hd
  · rfl
  · rw [hp]

/-- Claim C8 (confirmed).  A chunk holding a single `data: ` line whose
payload is malformed JSON contributes nothing and stops nothing: the stream
run with that chunk equals the run without it, from any state — so every
subsequent valid delta is still delivered and the final content has no
fragment from the malformed line, and no error is raised (the processor is a
total function). -/
theorem malformed_line_skipped (parse : Str → Option StreamChunkJson) (st : StreamState)
    (pre post : List Str) (mal payload : Str)
    (hl : chunkLines mal = ["data: ".toList ++ payload])
    (hp : parse payload = none) :
    handleStreamFrom parse st (pre ++ mal :: post) = handleStreamFrom parse st (pre ++ post) := by
  unfold handleStreamFrom
  rw [List.foldl_append, List.foldl_append, List.foldl_cons]
  congr 1
  show processChunk parse (List.foldl (processChunk parse) st pre) mal = _
  unfold processChunk
  rw [hl]
  exact processLine_malformed parse _ payload hp

/-- Claim C8 witness: a malformed line between two valid chunks — the run
equals the run with the malformed chunk deleted. -/
theorem malformed_line_skipped_witness :
    handleStreamFrom (fun s => if s = "G".toList then some ⟨some "hi".toList, none, none⟩ else none)
        initStreamState ["data: G\n".toList, "data: notjson\n".toList, "data: G\n".toList] =
      handleStreamFrom (fun s => if s = "G".toList then some ⟨some "hi".toList, none, none⟩ else none)
        initStreamState ["data: G\n".toList, "data: G\n".toList] :=
  malformed_line_skipped
    (fun s => if s = "G".toList then some ⟨some "hi".toList, none, none⟩ else none)
    initStreamState ["data: G\n".toList] ["data: G\n".toList]
    "data: notjson\n".toList "notjson".toList (by decide) (by decide)

/-- A line that does not carry the `data: ` prefix is skipped. -/
theorem processLine_not_data (parse : Str → Option StreamChunkJson) (st : StreamState)
    (line : Str) (h : "data: ".toList.isPrefixOf line = false) :
    processLine parse st line = st := by
  unfold processLine
  rw [h]
  rfl

/-- Claim C10 (confirmed).  The decoder splits each reader chunk on newlines
independently, with no partial-line buffer: when a `data: ` line is split
across two successive chunks, its first fragment is an unparseable data line
and its second fragment is not a data line, so the delta is delivered by
neither — events and content stay empty — whereas the same line arriving in
one chunk delivers the delta and puts it in the content. -/
theorem split_data_line_dropped (parse : Str → Option StreamChunkJson) (a b : Str)
    (j : StreamChunkJson) (d : Str)
    (hla : chunkLines ("data: ".toList ++ a) = ["data: ".toList ++ a])
    (hlb : chunkLines (b ++ ['\n']) = [b])
    (hlu : chunkLines ("data: ".toList ++ (a ++ b) ++ ['\n']) = ["data: ".toList ++ (a ++ b)])
    (hpa : parse a = none)
    (hb : "data: ".toList.isPrefixOf b = false)
    (hpu : parse (a ++ b) = some j)
    (hdone : a ++ b ≠ "[DONE]".toList)
    (hd : j.delta = some d) (hne : d.isEmpty = false) :
    (handleStream parse ["data: ".toList ++ a, b ++ ['\n']]).events = [] ∧
    (handleStream parse ["data: ".toList ++ a, b ++ ['\n']]).fullContent = [] ∧
    (handleStream parse ["data: ".toList ++ (a ++ b) ++ ['\n']]).events = [d] ∧
    (handleStream parse ["data: ".toList ++ (a ++ b) ++ ['\n']]).fullContent = d := by
  have hsplit : handleStream parse ["data: ".toList ++ a, b ++ ['\n']] = initStreamState := by
    unfold handleStream handleStreamFrom
    rw [List.foldl_cons, List.foldl_cons, List.foldl_nil]
    unfold processChunk
    rw [hla, List.foldl_cons, List.foldl_nil, processLine_malformed parse _ a hpa, hlb,
      List.foldl_cons, List.foldl_nil, processLine_not_data parse _ b hb]
  have hfull : handleStream parse ["data: ".toList ++ (a ++ b) ++ ['\n']] =
      applyFinish (applyUsage (applyDelta initStreamState j.delta) j.usage) j.finishReason := by
    unfold handleStream handleStreamFrom
    rw [List.foldl_cons, List.foldl_nil]
    unfold processChunk
    rw [hlu, List.foldl_cons, List.foldl_nil, processLine_on_data_line, if_neg hdone, hpu]
  refine ⟨?_, ?_, ?_, ?_⟩
  · rw [hsplit]; rfl
  · rw [hsplit]; rfl
  · rw [hfull, hd]
    unfold applyDelta applyUsage applyFinish
    dsimp only
    rw [if_neg (by simp [hne])]
    cases j.usage <;> cases hfr : j.finishReason <;> simp [initStreamState]
    · split_ifs <;> rfl
    · split_ifs <;> rfl
  · rw [hfull, hd]
    unfold applyDelta applyUsage applyFinish
    dsimp only
    rw [if_neg (by simp [hne])]
    cases j.usage <;> cases hfr : j.finishReason <;> simp [initStreamState]
    · split_ifs <;> rfl
    · split_ifs <;> rfl

/-- Claim C10 witness: the line `data: GOOD` (whose payload parses to the
delta `hi`) split as `data: GO` / `OD\n` delivers nothing, while the whole
line delivers `hi`. -/
theorem split_data_line_dropped_witness :
    (handleStream (fun s => if s = "GOOD".toList then some ⟨some "hi".toList, none, none⟩ else none)
        ["data: ".toList ++ "GO".toList, "OD".toList ++ ['\n']]).events = [] ∧
    (handleStream (fun s => if s = "GOOD".toList then some ⟨some "hi".toList, none, none⟩ else none)
        ["data: ".toList ++ "GO".toList, "OD".toList ++ ['\n']]).fullContent = [] ∧
    (handleStream (fun s => if s = "GOOD".toList then some ⟨some "hi".toList, none, none⟩ else none)
        ["data: ".toList ++ ("GO".toList ++ "OD".toList) ++ ['\n']]).events = ["hi".toList] ∧
    (handleStream (fun s => if s = "GOOD".toList then some ⟨some "hi".toList, none, none⟩ else none)
        ["data: ".toList ++ ("GO".toList ++ "OD".toList) ++ ['\n']]).fullContent = "hi".toList :=
  split_data_line_dropped
    (fun s => if s = "GOOD".toList then some ⟨some "hi".toList, none, none⟩ else none)
    "GO".toList "OD".toList ⟨some "hi".toList, none, none⟩ "hi".toList
    (by decide) (by decide) (by decide) (by decide) (by decide) (by decide) (by decide)
    (by decide) (by decide)

end AICompanion

namespace AICompanion

/-- Claim C9 (corrected).  For each attempt the timeout timer is armed once
and is retired when the attempt settles — on the success path and on the
catch path alike, so no timer survives a settled attempt — but the
cancellation hook registered on the token during the attempt is *not*
retired: the token offers no deregistration, so the hook stays in the
callback list after the attempt settles. -/
theorem timer_retired_hooks_accumulate (t : Token) (k : Nat) :
    armedTimers (attemptEffects t k).2 = [] ∧
      (t.cancelled = false → (attemptEffects t k).1.callbacks = t.callbacks ++ [k]) := by
  constructor
  · unfold attemptEffects onCancel armedTimers
    cases hc : t.cancelled <;> simp
  · intro h
    unfold attemptEffects onCancel
    simp [h]

/-- Claim C9 witness: one attempt on a fresh token retires its timer and
leaves its hook registered. -/
theorem timer_retired_hooks_accumulate_witness :
    armedTimers (attemptEffects createCancelToken 0).2 = [] ∧
      (attemptEffects createCancelToken 0).1.callbacks = createCancelToken.callbacks ++ [0] :=
  ⟨(timer_retired_hooks_accumulate createCancelToken 0).1,
   (timer_retired_hooks_accumulate createCancelToken 0).2 rfl⟩

/-- Claim C9 counterexample.  After two attempts on the same token — each
already settled — both hooks are still registered (two armed at once, not at
most one), and a later `cancel()` fires hook 0 of the long-settled first
attempt, contradicting the claim that a settled attempt's hook is no longer
armed. -/
theorem hooks_fire_for_settled_attempts_cx :
    (attemptEffects (attemptEffects createCancelToken 0).1 1).1.callbacks = [0, 1] ∧
      (tokenCancel (attemptEffects (attemptEffects createCancelToken 0).1 1).1).2 = [0, 1] := by
  decide

/-- Insertion before a list whose elements all have priority not above the
inserted element's. -/
theorem insertDesc_of_le (a : QueuedRequest) (m : List QueuedRequest)
    (h : ∀ z ∈ m, z.priority ≤ a.priority) : insertDesc a m = a :: m := by
  cases m with
  | nil => rfl
  | cons y ys => unfold insertDesc; rw [if_pos (h y (by simp))]

/-- Membership in a stable insert comes from the new element or the old
list. -/
theorem mem_insertAfterGE (x z : QueuedRequest) :
    ∀ l, z ∈ insertAfterGE x l → z = x ∨ z ∈ l := by
  intro l
  induction l with
  | nil => intro h; simp [insertAfterGE] at h; exact Or.inl h
  | cons y ys ih =>
    intro h
    unfold insertAfterGE at h
    split_ifs at h with hc
    · rcases List.mem_cons.mp h with h1 | h2
      · right; simp [h1]
      · rcases ih h2 with h3 | h4
        · exact Or.inl h3
        · right; simp [h4]
    · rcases List.mem_cons.mp h with h1 | h2
      · exact Or.inl h1
      · exact Or.inr h2

/-- Stable insert below a strictly higher-priority set goes to the front. -/
theorem insertAfterGE_of_all_lt (x : QueuedRequest) (l : List QueuedRequest)
    (h : ∀ z ∈ l, z.priority < x.priority) : insertAfterGE x l = x :: l := by
  cases l with
  | nil => rfl
  | cons y ys => unfold insertAfterGE; rw [if_neg (Nat.not_le.mpr (h y (by simp)))]

/-- Unfolding equation of the stable insert, kept-head case. -/
theorem insertAfterGE_cons_le (x y : QueuedRequest) (ys : List QueuedRequest)
    (h : x.priority ≤ y.priority) :
    insertAfterGE x (y :: ys) = y :: insertAfterGE x ys := by
  simp [insertAfterGE, h]

/-- Unfolding equation of the stable insert, new-head case. -/
theorem insertAfterGE_cons_gt (x y : QueuedRequest) (ys : List QueuedRequest)
    (h : ¬ x.priority ≤ y.priority) :
    insertAfterGE x (y :: ys) = x :: y :: ys := by
  simp [insertAfterGE, h]

/-- Push-then-stable-sort on an already sorted waiting list equals the stable
insert: the new element lands after all entries of greater or equal priority
(FIFO among ties) and before the first strictly smaller one. -/
theorem sortDesc_sorted_append (x : QueuedRequest) :
    ∀ l, PendingSorted l → sortDesc (l ++ [x]) = insertAfterGE x l := by
  intro l
  induction l with
  | nil => intro _; rfl
  | cons a l' ih =>
    intro hs
    have hal : ∀ z ∈ l', z.priority ≤ a.priority := (List.pairwise_cons.mp hs).1
    have hl' : PendingSorted l' := (List.pairwise_cons.mp hs).2
    rw [List.cons_append]
    show insertDesc a (sortDesc (l' ++ [x])) = insertAfterGE x (a :: l')
    rw [ih hl']
    by_cases hax : x.priority ≤ a.priority
    · rw [insertAfterGE_cons_le x a l' hax]
      apply insertDesc_of_le
      intro z hz
      rcases mem_insertAfterGE x z l' hz with h1 | h2
      · rw [h1]; exact hax
      · exact hal z h2
    · have hlt : a.priority < x.priority := Nat.not_le.mp hax
      rw [insertAfterGE_cons_gt x a l' hax]
      rw [insertAfterGE_of_all_lt x l' fun z hz => lt_of_le_of_lt (hal z hz) hlt]
      show insertDesc a (x :: l') = x :: a :: l'
      unfold insertDesc
      rw [if_neg hax]
      rw [insertDesc_of_le a l' hal]

/-- Stable insertion preserves the sorted-descending invariant. -/
theorem insertAfterGE_sorted (x : QueuedRequest) :
    ∀ l, PendingSorted l → PendingSorted (insertAfterGE x l) := by
  intro l
  induction l with
  | nil => intro _; simp [insertAfterGE, PendingSorted]
  | cons y ys ih =>
    intro hs
    have h1 := (List.pairwise_cons.mp hs).1
    have h2 := (List.pairwise_cons.mp hs).2
    unfold insertAfterGE
    split_ifs with hc
    · apply List.pairwise_cons.mpr
      refine ⟨fun z hz => ?_, ih h2⟩
      rcases mem_insertAfterGE x z ys hz with hzx | hzm
      · rw [hzx]; exact hc
      · exact h1 z hzm
    · apply List.pairwise_cons.mpr
      refine ⟨fun z hz => ?_, hs⟩
      rcases List.mem_cons.mp hz with hzy | hzm
      · rw [hzy]; exact le_of_lt (Nat.not_le.mp hc)
      · exact le_trans (h1 z hzm) (le_of_lt (Nat.not_le.mp hc))

/-- Event-trace decomposition of a sequence of enqueues. -/
theorem enqueueAll_append (st : QueueState) (l1 l2 : List QueuedRequest) :
    enqueueAll st (l1 ++ l2) =
      ((enqueueAll (enqueueAll st l1).1 l2).1,
       (enqueueAll st l1).2 ++ (enqueueAll (enqueueAll st l1).1 l2).2) := by
  induction l1 generalizing st with
  | nil => simp [enqueueAll]
  | cons q qs ih => simp [enqueueAll, ih]

/-- An enqueue at capacity pushes onto the waiting list and re-sorts it,
with no client invocation. -/
theorem enqueue_at_capacity (st : QueueState) (q : QueuedRequest)
    (h : ¬ st.active.length < st.maxConcurrent) :
    enqueue st q = ({ st with pending := sortDesc (st.pending ++ [q]) }, []) := by
  unfold enqueue
  rw [if_neg h]

/-- Enqueues below the concurrency limit with an empty waiting list all admit
immediately: the ids are appended to the active set, nothing waits, and each
request is handed to the client in order. -/
theorem enqueueAll_free (qs : List QueuedRequest) :
    ∀ st : QueueState, st.pending = [] →
      st.active.length + qs.length ≤ st.maxConcurrent →
      (enqueueAll st qs).1 = { st with active := st.active ++ qs.map (·.id) } ∧
      (enqueueAll st qs).2 = qs.map fun r => QEvent.sendReq r.id := by
  induction qs with
  | nil => intro st _ _; simp [enqueueAll]
  | cons q rest ih =>
    intro st hp hb
    have hlt : st.active.length < st.maxConcurrent := by
      simp only [List.length_cons] at hb; omega
    have henq : enqueue st q = ({ st with active := st.active ++ [q.id] }, [QEvent.sendReq q.id]) := by
      unfold enqueue admitReq
      rw [if_pos hlt]
    have hrec := ih { st with active := st.active ++ [q.id] } (by simp [hp])
      (by simp only [List.length_cons] at hb; simp; omega)
    unfold enqueueAll
    rw [henq]
    simp only [hrec.1, hrec.2]
    constructor
    · simp
    · simp

/-- Bound preservation by `enqueue`. -/
theorem queue_enqueue_bound (st : QueueState) (q : QueuedRequest)
    (h : st.active.length ≤ st.maxConcurrent) :
    (enqueue st q).1.active.length ≤ st.maxConcurrent ∧
      (enqueue st q).1.maxConcurrent = st.maxConcurrent := by
  unfold enqueue admitReq
  split_ifs with hlt <;> simp <;> omega

/-- Bound preservation by `processNext`. -/
theorem processNext_bound (st : QueueState)
    (h : st.active.length ≤ st.maxConcurrent) :
    (processNext st).1.active.length ≤ st.maxConcurrent ∧
      (processNext st).1.maxConcurrent = st.maxConcurrent := by
  unfold processNext
  cases hp : st.pending with
  | nil => simpa using h
  | cons next rest =>
    split_ifs with hlt
    · unfold admitReq; simp; omega
    · simpa using h

/-- Bound preservation by `settle`. -/
theorem queue_settle_bound (st : QueueState) (id : Str) (s : Bool)
    (h : st.active.length ≤ st.maxConcurrent) :
    (settle st id s).1.active.length ≤ st.maxConcurrent ∧
      (settle st id s).1.maxConcurrent = st.maxConcurrent := by
  unfold settle
  have hle : (st.active.erase id).length ≤ st.maxConcurrent :=
    le_trans (List.Sublist.length_le (List.erase_sublist id st.active)) h
  exact processNext_bound _ hle

/-- Bound preservation by `cancel`. -/
theorem queue_cancel_bound (st : QueueState) (id : Str)
    (h : st.active.length ≤ st.maxConcurrent) :
    (cancel st id).1.active.length ≤ st.maxConcurrent ∧
      (cancel st id).1.maxConcurrent = st.maxConcurrent := by
  unfold cancel
  have hle : (st.active.erase id).length ≤ st.maxConcurrent :=
    le_trans (List.Sublist.length_le (List.erase_sublist id st.active)) h
  split_ifs with hmem
  · have hb := processNext_bound { st with active := st.active.erase id } hle
    dsimp only
    split
    · simpa using hb
    · simpa using hb
  · dsimp only
    split
    · simpa using h
    · simpa using h

/-- Settlement with a non-empty waiting list admits exactly one waiting
request into the vacated slot: the active count is restored, the waiting
head leaves the list, and exactly one client invocation happens. -/
theorem settle_admits_next (st : QueueState) (id : Str) (s : Bool)
    (next : QueuedRequest) (rest : List QueuedRequest)
    (hp : st.pending = next :: rest) (hmem : id ∈ st.active)
    (hb : st.active.length ≤ st.maxConcurrent) :
    (settle st id s).1.active.length = st.active.length ∧
      (settle st id s).1.pending = rest ∧
      (settle st id s).2 = [QEvent.sendReq next.id] := by
  have hlen : (st.active.erase id).length = st.active.length - 1 :=
    List.length_erase_of_mem hmem
  have hpos : 1 ≤ st.active.length := List.length_pos.mpr (List.ne_nil_of_mem hmem)
  have hlt : (st.active.erase id).length < st.maxConcurrent := by omega
  unfold settle processNext
  dsimp only
  rw [hp]
  dsimp only
  rw [if_pos hlt]
  unfold admitReq
  refine ⟨?_, rfl, rfl⟩
  simp [hlen]
  omega

/-- Claim C5 (confirmed).  The queue's concurrency bound holds: `enqueue`,
`settle` and `cancel` all preserve `active.length ≤ maxConcurrent`; from an
idle queue with limit `K`, enqueuing `K + 1` requests admits exactly the
first `K` (in order) and leaves exactly the last one waiting; and a
settlement while requests wait admits exactly one of them into the vacated
slot. -/
theorem queue_bounded_concurrency :
    (∀ st (q : QueuedRequest), st.active.length ≤ st.maxConcurrent →
        (enqueue st q).1.active.length ≤ st.maxConcurrent) ∧
    (∀ st (id : Str) (s : Bool), st.active.length ≤ st.maxConcurrent →
        (settle st id s).1.active.length ≤ st.maxConcurrent) ∧
    (∀ st (id : Str), st.active.length ≤ st.maxConcurrent →
        (cancel st id).1.active.length ≤ st.maxConcurrent) ∧
    (∀ K (qs : List QueuedRequest) (q : QueuedRequest), qs.length = K →
        (enqueueAll (initQueue K) (qs ++ [q])).1.active.length = K ∧
        (enqueueAll (initQueue K) (qs ++ [q])).1.pending = [q] ∧
        (enqueueAll (initQueue K) (qs ++ [q])).2 = qs.map fun r => QEvent.sendReq r.id) ∧
    (∀ st (id : Str) (s : Bool) next rest, st.pending = next :: rest → id ∈ st.active →
        st.active.length ≤ st.maxConcurrent →
        (settle st id s).1.active.length = st.active.length ∧
        (settle st id s).1.pending = rest ∧
        (settle st id s).2 = [QEvent.sendReq next.id]) := by
  refine ⟨fun st q h => (queue_enqueue_bound st q h).1,
    fun st id s h => (queue_settle_bound st id s h).1,
    fun st id h => (queue_cancel_bound st id h).1, ?_,
    fun st id s next rest hp hm hb => settle_admits_next st id s next rest hp hm hb⟩
  intro K qs q hlen
  have hfree := enqueueAll_free qs (initQueue K) rfl (by simp [initQueue, hlen])
  have hact : (enqueueAll (initQueue K) qs).1.active.length = K := by
    rw [hfree.1]; simp [initQueue, hlen]
  have hmax : (enqueueAll (initQueue K) qs).1.maxConcurrent = K := by
    rw [hfree.1]; simp [initQueue]
  have hpend : (enqueueAll (initQueue K) qs).1.pending = [] := by
    rw [hfree.1]; simp [initQueue]
  have hcap : ¬ (enqueueAll (initQueue K) qs).1.active.length <
      (enqueueAll (initQueue K) qs).1.maxConcurrent := by
    rw [hact, hmax]; omega
  rw [enqueueAll_append, hfree.2]
  simp only [enqueueAll]
  rw [enqueue_at_capacity _ q hcap, hpend]
  refine ⟨by simpa using hact, by simp [sortDesc, insertDesc], by simp⟩

/-- Claim C5 witness: limit 1, two enqueues — the first is admitted, the
second waits. -/
theorem queue_bounded_concurrency_witness :
    (enqueueAll (initQueue 1)
        ([{ id := "r1".toList, priority := 5, addedAt := 0 }] ++
          [{ id := "r2".toList, priority := 5, addedAt := 1 }])).1.active.length = 1 ∧
    (enqueueAll (initQueue 1)
        ([{ id := "r1".toList, priority := 5, addedAt := 0 }] ++
          [{ id := "r2".toList, priority := 5, addedAt := 1 }])).1.pending =
      [{ id := "r2".toList, priority := 5, addedAt := 1 }] ∧
    (enqueueAll (initQueue 1)
        ([{ id := "r1".toList, priority := 5, addedAt := 0 }] ++
          [{ id := "r2".toList, priority := 5, addedAt := 1 }])).2 =
      [QEvent.sendReq "r1".toList] :=
  queue_bounded_concurrency.2.2.2.1 1
    [{ id := "r1".toList, priority := 5, addedAt := 0 }]
    { id := "r2".toList, priority := 5, addedAt := 1 } rfl

/-- Claim C6 (confirmed).  Waiting-list admission is strictly
priority-ordered with FIFO ties: an enqueue at capacity places the new
request after every waiting request of greater or equal priority and before
the first of strictly smaller priority (the push-then-stable-sort of the
source, JavaScript's sort being stable); the sorted-descending invariant is
preserved; the admitted head dominates every waiting request; and the
priorities [3, 9, 1] enqueued at capacity are admitted as 9, then 3,
then 1. -/
theorem queue_priority_stable_admission :
    (∀ st (q : QueuedRequest), PendingSorted st.pending →
        ¬ st.active.length < st.maxConcurrent →
        (enqueue st q).1.pending = insertAfterGE q st.pending ∧ (enqueue st q).2 = []) ∧
    (∀ (l : List QueuedRequest) (q : QueuedRequest), PendingSorted l →
        PendingSorted (insertAfterGE q l)) ∧
    (∀ (next : QueuedRequest) rest, PendingSorted (next :: rest) →
        ∀ r ∈ rest, r.priority ≤ next.priority) ∧
    admittedIds priorityTrace.2 =
      ["q0".toList, "p9".toList, "p3".toList, "p1".toList] := by
  refine ⟨?_, fun l q h => insertAfterGE_sorted q l h, ?_, by decide⟩
  · intro st q hs hcap
    rw [enqueue_at_capacity st q hcap]
    exact ⟨sortDesc_sorted_append q st.pending hs, rfl⟩
  · intro next rest hs r hr
    exact (List.pairwise_cons.mp hs).1 r hr

/-- Claim C6 witness: enqueuing an equal-priority request at capacity places
it after the already-waiting equal-priority request (FIFO among ties). -/
theorem queue_priority_stable_admission_witness :
    (enqueue cxQueueState { id := "c".toList, priority := 5, addedAt := 9 }).1.pending =
      insertAfterGE { id := "c".toList, priority := 5, addedAt := 9 } cxQueueState.pending ∧
    (enqueue cxQueueState { id := "c".toList, priority := 5, addedAt := 9 }).2 = [] :=
  queue_priority_stable_admission.1 cxQueueState
    { id := "c".toList, priority := 5, addedAt := 9 }
    (by simp [PendingSorted, cxQueueState]) (by decide)

end AICompanion

namespace AICompanion

/-- Removal search misses when no waiting entry carries the id. -/
theorem eraseFirstById_not_found : ∀ (l : List QueuedRequest) (id : Str),
    (∀ q ∈ l, q.id ≠ id) → eraseFirstById l id = (l, none) := by
  intro l id
  induction l with
  | nil => intro _; rfl
  | cons q qs ih =>
    intro h
    unfold eraseFirstById
    rw [if_neg (h q (by simp))]
    rw [ih fun r hr => h r (by simp [hr])]

/-- Removal search splices out the first waiting entry carrying the id. -/
theorem eraseFirstById_found (q : QueuedRequest) (post : List QueuedRequest) (id : Str)
    (hid : q.id = id) :
    ∀ pre, (∀ p ∈ pre, p.id ≠ id) →
      eraseFirstById (pre ++ q :: post) id = (pre ++ post, some q) := by
  intro pre
  induction pre with
  | nil =>
    intro _
    simp only [List.nil_append]
    unfold eraseFirstById
    rw [if_pos hid]
  | cons p ps ih =>
    intro h
    unfold eraseFirstById
    rw [List.cons_append]
    dsimp only
    rw [if_neg (h p (by simp))]
    rw [ih fun r hr => h r (by simp [hr])]
    simp

/-- Claim C7 (corrected).  Cancelling an id that names only a waiting (never
admitted) request splices that entry — the first with that id — out of the
waiting list and rejects its promise with the queue's cancellation error,
whose `type` is `unknown` (message `请求已取消`, details
`Request cancelled by user`, `retryable = false`), the error-kind
enumeration having no `cancelled` member; the request is never handed to
the client (the trace holds the rejection only); and cancelling an id that
names neither an active nor a waiting request changes nothing. -/
theorem cancel_waiting_rejects (st : QueueState) (id : Str) (hact : id ∉ st.active) :
    ((∀ q ∈ st.pending, q.id ≠ id) → cancel st id = (st, [])) ∧
    (∀ pre (q : QueuedRequest) post, st.pending = pre ++ q :: post → q.id = id →
        (∀ p ∈ pre, p.id ≠ id) →
        cancel st id =
          ({ st with pending := pre ++ post },
           [QEvent.rejected id { type := AIErrorType.unknown, message := "请求已取消".toList,
                                 details := "Request cancelled by user".toList,
                                 retryable := false }])) := by
  constructor
  · intro hnf
    unfold cancel
    rw [if_neg hact]
    dsimp only
    rw [eraseFirstById_not_found st.pending id hnf]
  · intro pre q post hp hid hpre
    unfold cancel
    rw [if_neg hact]
    dsimp only
    rw [hp, eraseFirstById_found q post id hid pre hpre]
    simp [queueCancelError]

/-- Claim C7 witness: cancelling the single waiting request of the concrete
at-capacity queue empties its waiting list and rejects it with the
`unknown`-kind cancellation error. -/
theorem cancel_waiting_rejects_witness :
    cancel cxQueueState "b".toList =
      ({ cxQueueState with pending := ([] : List QueuedRequest) ++ [] },
       [QEvent.rejected "b".toList
          { type := AIErrorType.unknown, message := "请求已取消".toList,
            details := "Request cancelled by user".toList, retryable := false }]) :=
  (cancel_waiting_rejects cxQueueState "b".toList (by decide)).2
    [] { id := "b".toList, priority := 5, addedAt := 0 } [] rfl rfl (by simp)

/-- Claim C7 counterexample.  The rejection value the queue actually uses for
a cancelled waiting request has `type = unknown`; the claimed `cancelled`
kind does not exist in the code's error-kind enumeration, so the claim as
stated is false on this concrete trace (which otherwise behaves as claimed:
the entry is removed and no client call is made). -/
theorem cancel_waiting_kind_cx :
    (cancel cxQueueState "b".toList).2 =
      [QEvent.rejected "b".toList
        { type := AIErrorType.unknown, message := "请求已取消".toList,
          details := "Request cancelled by user".toList, retryable := false }] ∧
    (cancel cxQueueState "b".toList).1.pending = [] ∧
    admittedIds (cancel cxQueueState "b".toList).2 = [] := by
  decide

end AICompanion
